import Mathlib

/-!
Shallow embedding of `emp_priors.py` (bednet stock-and-flow empirical priors).

Python floats are modelled as rationals (`ℚ`).  The transcendental float
functions used by the script (`**` with a fractional exponent, `log`, `exp`
from numpy) are not algebraic over `ℚ`; they are supplied as components of the
environment (`Env.fpow`, `Env.flog`, `Env.fexp`), exactly as the script links
against numpy.  The MCMC engine (pymc) is external to the repository; it is
modelled as an oracle `Env.sampler` mapping a constructed model and the
`mc.sample` arguments to posterior statistics (mean and standard deviation,
as read back through `stats()`), or `none` when sampling fails.  The
filesystem behind `settings.PATH` is a name-to-parsed-JSON association list
threaded through each procedure together with a log of `mc.sample` calls.

pymc's `normal_like(x, mu, tau)` and `Normal(name, mu, tau)` parameterize the
normal by its precision `tau` (inverse variance); the observed-likelihood
nodes below record the expressions the script passes in those positions.
-/

namespace EmpPriors

mutual
/-- JSON values as read and written by the module through `simplejson`:
numbers and string-keyed objects (the only shapes the module produces, and
the shapes its cache files are documented to hold). -/
inductive Json where
  | num (x : ℚ) : Json
  | obj (fields : JFields) : Json
deriving DecidableEq
/-- Field list of a JSON object. -/
inductive JFields where
  | nil : JFields
  | cons (key : String) (val : Json) (rest : JFields) : JFields
deriving DecidableEq
end

/-- Lookup of a key in a JSON object, mirroring Python `d[k]` on a dict. -/
def JFields.get : JFields → String → Option Json
  | .nil, _ => none
  | .cons k v r, k2 => if k = k2 then some v else r.get k2

/-- Faults the script can raise in the modelled fragment. -/
inductive PyErr where
  | keyErrorS (k : String) : PyErr
  | keyErrorK (k : String × ℚ) : PyErr
  | typeError : PyErr
  | samplerError : PyErr
  | nameError (n : String) : PyErr
deriving DecidableEq

/-- Posterior summary for one monitored variable: `stats()['mean']` and
`stats()['standard deviation']`. -/
structure Stats where
  mean : ℚ
  std : ℚ
deriving DecidableEq

/-- A record of `data.retention` (fields as accessed in the source). -/
structure RetenRec where
  Name : String
  Year : ℚ
  Retention_Rate : ℚ
  Follow_up_Time : ℚ
deriving DecidableEq

/-- A record of `data.admin_llin`. -/
structure AdminRec where
  Country : String
  Year : ℚ
  Program_LLINs : ℚ
deriving DecidableEq

/-- A record of `data.hh_llin_flow`. -/
structure FlowRec where
  Country : String
  Year : ℚ
  mean_survey_date : ℚ
  Total_LLINs : ℚ
  Total_st : ℚ
deriving DecidableEq

/-- A record of `data.population`. -/
structure PopRec where
  Country : String
  Year : ℚ
  Pop : ℚ
deriving DecidableEq

/-- A record of `data.hh_llin_stock`. -/
structure StockRec where
  Country : String
  Survey_Year2 : ℚ
  SvyIndex_LLINstotal : ℚ
  SvyIndex_st : ℚ
deriving DecidableEq

/-- A record of `data.llin_coverage`. -/
structure CovRec where
  Country : String
  Survey_Year2 : ℚ
  Per_0LLINs : ℚ
  LLINs0_SE : ℚ
deriving DecidableEq

/-- An observed retention node: `value = d['Retention_Rate']`,
`T = d['Follow_up_Time']`; its likelihood is
`normal_like(value, (1 - pi) ** T, 1 / sigma ** 2)`. -/
structure RetenObs where
  name : String
  value : ℚ
  T : ℚ
deriving DecidableEq

/-- The model `llin_discard_rate` constructs: `pi ~ Beta(1, 2)`,
`sigma ~ InverseGamma(11, 1)`, plus one observed node per retention record. -/
structure RetenModel where
  piPrior : ℚ × ℚ
  sigmaPrior : ℚ × ℚ
  obs : List RetenObs
deriving DecidableEq

/-- An observed admin node: the eagerly evaluated default arguments
`value = log(d['obs'])`, `log_truth = log(d['truth'])`,
`log_v = 1.1 * d['se'] ** 2 / d['truth'] ** 2`; its likelihood is
`normal_like(value, log_truth + eps, 1 / (log_v + sigma ** 2))`. -/
structure AdminObs where
  value : ℚ
  log_truth : ℚ
  log_v : ℚ
deriving DecidableEq

/-- The model `admin_err_and_bias` constructs: `sigma ~ InverseGamma(11, 1)`,
`eps ~ Normal(0, 1)`, plus one observed node per fully joined country-year. -/
structure AdminModel where
  sigmaPrior : ℚ × ℚ
  epsPrior : ℚ × ℚ
  obs : List AdminObs
deriving DecidableEq

/-- The latent per-key stock variable
`Normal('stock_%s_%s' % k, mu=d['stock'], tau=d['stock_se'] ** -2)`. -/
structure StockNode where
  name : String
  mu : ℚ
  tau : ℚ
deriving DecidableEq

/-- An observed coverage node: `value = d['uncovered']`,
`tau = d['se'] ** -2`; its likelihood is
`normal_like(value, z + (1 - z) * exp(-e * stock), tau)`. -/
structure CovObs where
  value : ℚ
  stockName : String
  tau : ℚ
deriving DecidableEq

/-- The model `cov_and_zif_fac` constructs: `e ~ Normal(5, 3)`,
`z ~ Beta(1, 10)`, plus a latent stock node and an observed node per fully
joined country-year. -/
structure CovModel where
  ePrior : ℚ × ℚ
  zPrior : ℚ × ℚ
  nodes : List (StockNode × CovObs)
deriving DecidableEq

/-- The variable set handed to `MCMC(vars, verbose=1)` by each procedure. -/
inductive PModel where
  | reten (m : RetenModel) : PModel
  | admin (m : AdminModel) : PModel
  | cov (m : CovModel) : PModel
deriving DecidableEq

/-- One invocation of `mc.sample(steps, burn, thin)` on a constructed model. -/
structure SampleCall where
  model : PModel
  steps : ℕ
  burn : ℕ
  thin : ℕ
deriving DecidableEq

/-- The mutable world each procedure touches: the cache directory
`settings.PATH` (filename to parsed JSON contents) and the log of
`mc.sample` invocations. -/
structure Effects where
  fs : List (String × Json)
  samples : List SampleCall
deriving DecidableEq

/-- The external collaborators of the module: the `data` tables, the numpy
float functions the script uses (`x ** y`, `log`, `exp`), and the pymc
sampling engine as an oracle from a model and the `mc.sample` arguments to
per-variable posterior statistics (`none` models a sampler fault). -/
structure Env where
  retention : List RetenRec
  admin_llin : List AdminRec
  hh_llin_flow : List FlowRec
  population : List PopRec
  hh_llin_stock : List StockRec
  llin_coverage : List CovRec
  fpow : ℚ → ℚ → ℚ
  flog : ℚ → ℚ
  fexp : ℚ → ℚ
  sampler : PModel → ℕ → ℕ → ℕ → Option (List (String × Stats))

/-- Association-list lookup (Python dict read `d[k]` / `d.get(k)`). -/
def aget {K V : Type} [DecidableEq K] : List (K × V) → K → Option V
  | [], _ => none
  | (k1, v) :: t, k => if k1 = k then some v else aget t k

/-- Association-list write `d[k] = v`: replace the binding if the key is
present, append a new binding otherwise. -/
def aset {K V : Type} [DecidableEq K] : List (K × V) → K → V → List (K × V)
  | [], k, v => [(k, v)]
  | (k1, v1) :: t, k, v => if k1 = k then (k, v) :: t else (k1, v1) :: aset t k v

/-- Python `map` over a list with exception propagation: the first raised
fault aborts the loop. -/
def mapE {α β : Type} (f : α → Except PyErr β) : List α → Except PyErr (List β)
  | [] => .ok []
  | a :: t =>
    match f a with
    | .error e => .error e
    | .ok b =>
      match mapE f t with
      | .error e => .error e
      | .ok bs => .ok (b :: bs)

/-- Python `for` loop threading a dict with exception propagation. -/
def foldE {σ α : Type} (f : σ → α → Except PyErr σ) (acc : σ) :
    List α → Except PyErr σ
  | [] => .ok acc
  | a :: t =>
    match f acc a with
    | .error e => .error e
    | .ok s1 => foldE f s1 t

/-- Country-year key used by the join dicts. -/
abbrev CYKey := String × ℚ

/-- Rendering of a rational in a node-name format string (stand-in for
Python `'%s' % value`; only used inside pymc variable names). -/
def qstr (q : ℚ) : String := toString q.num ++ "/" ++ toString q.den

/-- Source line 64: `alpha = x * (x * (1 - x) / v - 1)`. -/
def momentAlpha (x v : ℚ) : ℚ := x * (x * (1 - x) / v - 1)

/-- Source line 64: `beta = (1 - x) * (x * (1 - x) / v - 1)`. -/
def momentBeta (x v : ℚ) : ℚ := (1 - x) * (x * (1 - x) / v - 1)

/-- Mean of a `Beta(a, b)` distribution (standard moment, as the spec's
round-trip property uses it). -/
def betaMean (a b : ℚ) : ℚ := a / (a + b)

/-- Variance of a `Beta(a, b)` distribution (standard moment, as the spec's
round-trip property uses it). -/
def betaVariance (a b : ℚ) : ℚ := a * b / ((a + b) ^ 2 * (a + b + 1))

/-- The precision argument the retention likelihood passes to `normal_like`
(source line 48): `1. / sigma ** 2`. -/
def retenObsTau (sigma : ℚ) : ℚ := 1 / sigma ^ 2

/-- Variance of the normal asserted by a retention observation node: the
reciprocal of the precision passed to `normal_like`. -/
def retenObsVariance (sigma : ℚ) : ℚ := 1 / retenObsTau sigma

/-- The claim's reading of the retention likelihood: variance `1 / sigma^2`. -/
def claimedRetenVariance (sigma : ℚ) : ℚ := 1 / sigma ^ 2

/-- Mean of the normal asserted by a retention observation node
(source line 48): `(1. - pi) ** T_i`. -/
def retenObsMu (fpow : ℚ → ℚ → ℚ) (pi : ℚ) (n : RetenObs) : ℚ :=
  fpow (1 - pi) n.T

/-- Mean of the normal asserted by an admin observation node
(source line 131): `log_truth + eps`. -/
def adminObsMu (n : AdminObs) (eps : ℚ) : ℚ := n.log_truth + eps

/-- The precision argument the admin likelihood passes to `normal_like`
(source line 132): `1. / (log_v + sigma ** 2)`. -/
def adminObsTau (n : AdminObs) (sigma : ℚ) : ℚ := 1 / (n.log_v + sigma ^ 2)

/-- Variance of the normal asserted by an admin observation node: the
reciprocal of the precision passed to `normal_like`. -/
def adminObsVariance (n : AdminObs) (sigma : ℚ) : ℚ := 1 / adminObsTau n sigma

/-- Mean of the normal asserted by a coverage observation node
(source line 217): `z + (1 - z) * exp(-e * stock)`. -/
def covObsMu (fexp : ℚ → ℚ) (z e stock : ℚ) : ℚ :=
  z + (1 - z) * fexp (-(e * stock))

/-- The claim's adjusted truth for the admin likelihood:
`Total_LLINs / (1 - mu_pi) ** time` with
`time = mean_survey_date - (Year + 0.5)`. -/
def claimedAdjTruth (fpow : ℚ → ℚ → ℚ) (muPi : ℚ) (f : FlowRec) : ℚ :=
  f.Total_LLINs / fpow (1 - muPi) (f.mean_survey_date - (f.Year + 1 / 2))

/-- The claim's variance for the admin likelihood:
`1.1 * (se / truth) ^ 2 + sigma ^ 2`. -/
def claimedAdminVariance (se truth sigma : ℚ) : ℚ :=
  11 / 10 * (se / truth) ^ 2 + sigma ^ 2

/-- Line 92: `mu_pi = discard_prior['alpha'] /
(discard_prior['alpha'] + discard_prior['beta'])`. -/
def muPiOf (a b : ℚ) : ℚ := a / (a + b)

/-- Per-key dict built by `admin_err_and_bias`: possible keys are `obs`
(from `admin_llin`) and `time`, `truth`, `se` (from `hh_llin_flow`). -/
structure AdminEntry where
  obs : Option ℚ
  time : Option ℚ
  truth : Option ℚ
  se : Option ℚ
deriving DecidableEq

/-- The freshly created `data_dict[key] = {}`. -/
def emptyAdminEntry : AdminEntry := ⟨none, none, none, none⟩

/-- Python `len` of the per-key dict: the number of keys present. -/
def entrySizeA (e : AdminEntry) : ℕ :=
  e.obs.toList.length + e.time.toList.length + e.truth.toList.length +
    e.se.toList.length

/-- Per-key dict built by `cov_and_zif_fac`: possible keys are `pop`,
`stock`, `stock_se`, `uncovered`, `se`. -/
structure CovEntry where
  pop : Option ℚ
  stock : Option ℚ
  stock_se : Option ℚ
  uncovered : Option ℚ
  se : Option ℚ
deriving DecidableEq

/-- Python `len` of the per-key coverage dict. -/
def entrySizeC (e : CovEntry) : ℕ :=
  e.pop.toList.length + e.stock.toList.length + e.stock_se.toList.length +
    e.uncovered.toList.length + e.se.toList.length

/-- Key `(d['Country'], d['Year'])` of an admin record. -/
def adminKey (a : AdminRec) : CYKey := (a.Country, a.Year)

/-- Key `(d['Country'], d['Year'])` of a household flow record. -/
def flowKey (f : FlowRec) : CYKey := (f.Country, f.Year)

/-- Key `(d['Country'], d['Year'])` of a population record. -/
def popKey (p : PopRec) : CYKey := (p.Country, p.Year)

/-- Key `(d['Country'], d['Survey_Year2'])` of a stock record. -/
def stockKey (s : StockRec) : CYKey := (s.Country, s.Survey_Year2)

/-- Key `(d['Country'], d['Survey_Year2'])` of a coverage record. -/
def covRecKey (c : CovRec) : CYKey := (c.Country, c.Survey_Year2)

/-- Lines 104-108: store admin data for one record (create the per-key dict
if absent, then set `obs`). -/
def adminStep1 (dd : List (CYKey × AdminEntry)) (d : AdminRec) :
    List (CYKey × AdminEntry) :=
  let e := (aget dd (adminKey d)).getD emptyAdminEntry
  aset dd (adminKey d) ⟨some d.Program_LLINs, e.time, e.truth, e.se⟩

/-- Lines 111-117: store household data for one record (create the per-key
dict if absent, then set `time`, `truth`, `se`; `truth` divides by
`(1 - mu_pi) ** time` with the `time` just stored). -/
def adminStep2 (fpow : ℚ → ℚ → ℚ) (muPi : ℚ) (dd : List (CYKey × AdminEntry))
    (d : FlowRec) : List (CYKey × AdminEntry) :=
  let e := (aget dd (flowKey d)).getD emptyAdminEntry
  let t := d.mean_survey_date - (d.Year + 1 / 2)
  aset dd (flowKey d)
    ⟨e.obs, some t, some (d.Total_LLINs / fpow (1 - muPi) t), some d.Total_st⟩

/-- Lines 102-122 of `admin_err_and_bias`: build `data_dict` from the two
tables and keep only country-years whose dict has all 4 keys. -/
def adminJoin (A : List AdminRec) (F : List FlowRec) (fpow : ℚ → ℚ → ℚ)
    (muPi : ℚ) : List (CYKey × AdminEntry) :=
  (F.foldl (adminStep2 fpow muPi) (A.foldl adminStep1 [])).filter
    (fun p => entrySizeA p.2 == 4)

/-- Lines 126-132: the observed admin stoch for one fully joined record; the
default arguments are evaluated eagerly, so a missing dict key raises here. -/
def mkAdminObs (flog : ℚ → ℚ) (e : AdminEntry) : Except PyErr AdminObs :=
  match e.obs, e.truth, e.se with
  | some o, some t, some s =>
    .ok ⟨flog o, flog t, 11 / 10 * s ^ 2 / t ^ 2⟩
  | none, _, _ => .error (.keyErrorS "obs")
  | _, none, _ => .error (.keyErrorS "truth")
  | _, _, none => .error (.keyErrorS "se")

/-- Lines 187-190: store population data for one record; note
`data_dict[key] = {}` resets any previous entry before `pop` is written. -/
def covStep1 (dd : List (CYKey × CovEntry)) (d : PopRec) :
    List (CYKey × CovEntry) :=
  aset dd (popKey d) ⟨some (d.Pop * 1000), none, none, none, none⟩

/-- Lines 193-196: store stock data for one record; `data_dict[key]` and
`data_dict[key]['pop']` are read without a guard, so a key absent from the
population table raises `KeyError`. -/
def covStep2 (dd : List (CYKey × CovEntry)) (d : StockRec) :
    Except PyErr (List (CYKey × CovEntry)) :=
  match aget dd (stockKey d) with
  | none => .error (.keyErrorK (stockKey d))
  | some e =>
    match e.pop with
    | none => .error (.keyErrorS "pop")
    | some p =>
      .ok (aset dd (stockKey d)
        ⟨e.pop, some (d.SvyIndex_LLINstotal / p), some (d.SvyIndex_st / p),
          e.uncovered, e.se⟩)

/-- Lines 199-202: store coverage data for one record; `data_dict[key]` is
read without a guard, so a key absent from the population table raises
`KeyError`. -/
def covStep3 (dd : List (CYKey × CovEntry)) (d : CovRec) :
    Except PyErr (List (CYKey × CovEntry)) :=
  match aget dd (covRecKey d) with
  | none => .error (.keyErrorK (covRecKey d))
  | some e =>
    .ok (aset dd (covRecKey d)
      ⟨e.pop, e.stock, e.stock_se, some d.Per_0LLINs, some d.LLINs0_SE⟩)

/-- Lines 184-207 of `cov_and_zif_fac`: build `data_dict` from the three
tables (propagating any `KeyError`) and keep only country-years whose dict
has all 5 keys. -/
def covJoin (P : List PopRec) (S : List StockRec) (C : List CovRec) :
    Except PyErr (List (CYKey × CovEntry)) :=
  match foldE covStep2 (P.foldl covStep1 []) S with
  | .error e => .error e
  | .ok dd2 =>
    match foldE covStep3 dd2 C with
    | .error e => .error e
    | .ok dd3 => .ok (dd3.filter (fun p => entrySizeC p.2 == 5))

/-- Lines 210-218: the latent stock node and observed coverage stoch for one
fully joined record. -/
def mkCovPair (k : CYKey) (e : CovEntry) : Except PyErr (StockNode × CovObs) :=
  let nm := "stock_" ++ k.1 ++ "_" ++ qstr k.2
  match e.stock, e.stock_se, e.uncovered, e.se with
  | some stv, some sse, some unc, some se1 =>
    .ok (⟨nm, stv, sse ^ (-2 : ℤ)⟩, ⟨unc, nm, se1 ^ (-2 : ℤ)⟩)
  | none, _, _, _ => .error (.keyErrorS "stock")
  | _, none, _, _ => .error (.keyErrorS "stock_se")
  | _, _, none, _ => .error (.keyErrorS "uncovered")
  | _, _, _, none => .error (.keyErrorS "se")

/-- Line 44: name of a retention observation node,
`'retention_%s_%s' % (d['Name'], d['Year'])`. -/
def retenName (d : RetenRec) : String :=
  "retention_" ++ d.Name ++ "_" ++ qstr d.Year

/-- Lines 43-49: the observed retention stoch for one record. -/
def mkRetenObs (d : RetenRec) : RetenObs :=
  ⟨retenName d, d.Retention_Rate, d.Follow_up_Time⟩

/-- Lines 34-51: the variable set of `llin_discard_rate`:
`pi ~ Beta(1, 2)`, `sigma ~ InverseGamma(11, 1)`, one observed node per
retention record. -/
def retenModelOf (env : Env) : RetenModel :=
  ⟨(1, 2), (11, 1), env.retention.map mkRetenObs⟩

/-- Line 64: the returned and cached dict
`dict(alpha=x*(x*(1-x)/v-1), beta=(1-x)*(x*(1-x)/v-1))`. -/
def retenAlphaBetaJson (x v : ℚ) : Json :=
  .obj (.cons "alpha" (.num (momentAlpha x v))
    (.cons "beta" (.num (momentBeta x v)) .nil))

/-- Cache filename of `llin_discard_rate`. -/
def llinFname : String := "emp_prior_reten.json"

/-- Cache filename of `admin_err_and_bias`. -/
def adminFname : String := "emp_prior_admin.json"

/-- Cache filename of `cov_and_zif_fac`. -/
def covFname : String := "emp_prior_cov.json"

/-- Lines 34-68 of `llin_discard_rate`: build the model, run
`mc.sample(iter*thin+burn, burn, thin)` with `iter=10000`, `thin=20`,
`burn=20000`, summarize the posterior of `pi`, convert moments to Beta
shape parameters, cache and return. -/
def llinCompute (env : Env) (st : Effects) : Except PyErr Json × Effects :=
  let model := PModel.reten (retenModelOf env)
  let iter : ℕ := 10000
  let thin : ℕ := 20
  let burn : ℕ := 20000
  let st1 : Effects :=
    ⟨st.fs, st.samples ++ [⟨model, iter * thin + burn, burn, thin⟩]⟩
  match env.sampler model (iter * thin + burn) burn thin with
  | none => (.error .samplerError, st1)
  | some stats =>
    match aget stats "Pr[net is lost]" with
    | none => (.error (.keyErrorS "Pr[net is lost]"), st1)
    | some s =>
      let j := retenAlphaBetaJson s.mean (s.std ^ 2)
      (.ok j, ⟨aset st1.fs llinFname j, st1.samples⟩)

/-- Lines 15-68, `llin_discard_rate(recompute=False)`: return the parsed
cache file when it exists and recomputation is not forced, otherwise
compute, cache and return. -/
def llin_discard_rate (env : Env) (recompute : Bool) (st : Effects) :
    Except PyErr Json × Effects :=
  match aget st.fs llinFname with
  | some j => if recompute then llinCompute env st else (.ok j, st)
  | none => llinCompute env st

/-- Python `d[k]` on a parsed JSON value expected to be a number:
`KeyError` when the key is absent, `TypeError` when the value is not a
number or the container is not an object. -/
def jsonGetNum (j : Json) (k : String) : Except PyErr ℚ :=
  match j with
  | .obj l =>
    match l.get k with
    | some (.num x) => .ok x
    | some _ => .error .typeError
    | none => .error (.keyErrorS k)
  | _ => .error .typeError

/-- Line 147-148: `stats()['standard deviation'] ** -2`, the precision
reported for a posterior summary. -/
def precisionOf (s : Stats) : ℚ := s.std ^ (-2 : ℤ)

/-- One `dict(mu=..., tau=...)` posterior summary. -/
def muTauJson (s : Stats) : JFields :=
  .cons "mu" (.num s.mean) (.cons "tau" (.num (precisionOf s)) .nil)

/-- Lines 146-148: the returned and cached admin dict. -/
def adminResultJson (ss es : Stats) : Json :=
  .obj (.cons "sigma" (.obj (muTauJson ss))
    (.cons "eps" (.obj (muTauJson es)) .nil))

/-- Lines 231-233: the returned and cached coverage dict. -/
def covResultJson (es zs : Stats) : Json :=
  .obj (.cons "eta" (.obj (muTauJson es))
    (.cons "zeta" (.obj (muTauJson zs)) .nil))

/-- Lines 91-154 of `admin_err_and_bias`: obtain the discard prior (cached
or recomputed) through `llin_discard_rate()`, build the joined model, sample
with the same fixed constants, summarize `sigma` and `eps`, cache and
return. -/
def adminCompute (env : Env) (st : Effects) : Except PyErr Json × Effects :=
  let r0 := llin_discard_rate env false st
  match r0.1 with
  | .error e => (.error e, r0.2)
  | .ok dp =>
    match jsonGetNum dp "alpha", jsonGetNum dp "beta" with
    | .error e, _ => (.error e, r0.2)
    | .ok _, .error e => (.error e, r0.2)
    | .ok a, .ok b =>
      let dd := adminJoin env.admin_llin env.hh_llin_flow env.fpow (muPiOf a b)
      match mapE (mkAdminObs env.flog) (dd.map Prod.snd) with
      | .error e => (.error e, r0.2)
      | .ok nodes =>
        let model := PModel.admin ⟨(11, 1), (0, 1), nodes⟩
        let st1 : Effects :=
          ⟨r0.2.fs, r0.2.samples ++ [⟨model, 10000 * 20 + 20000, 20000, 20⟩]⟩
        match env.sampler model (10000 * 20 + 20000) 20000 20 with
        | none => (.error .samplerError, st1)
        | some stats =>
          match aget stats "error in admin dist data",
              aget stats "bias in admin dist data" with
          | none, _ => (.error (.keyErrorS "error in admin dist data"), st1)
          | _, none => (.error (.keyErrorS "bias in admin dist data"), st1)
          | some ss, some es =>
            let j := adminResultJson ss es
            (.ok j, ⟨aset st1.fs adminFname j, st1.samples⟩)

/-- Lines 71-154, `admin_err_and_bias(recompute=False)`. -/
def admin_err_and_bias (env : Env) (recompute : Bool) (st : Effects) :
    Except PyErr Json × Effects :=
  match aget st.fs adminFname with
  | some j => if recompute then adminCompute env st else (.ok j, st)
  | none => adminCompute env st

/-- Lines 177-239 of `cov_and_zif_fac`: build the joined model (propagating
any join fault), sample with the same fixed constants, summarize `e` and
`z`, cache and return. -/
def covCompute (env : Env) (st : Effects) : Except PyErr Json × Effects :=
  match covJoin env.population env.hh_llin_stock env.llin_coverage with
  | .error e => (.error e, st)
  | .ok dd =>
    match mapE (fun p => mkCovPair p.1 p.2) dd with
    | .error e => (.error e, st)
    | .ok pairs =>
      let model := PModel.cov ⟨(5, 3), (1, 10), pairs⟩
      let st1 : Effects :=
        ⟨st.fs, st.samples ++ [⟨model, 10000 * 20 + 20000, 20000, 20⟩]⟩
      match env.sampler model (10000 * 20 + 20000) 20000 20 with
      | none => (.error .samplerError, st1)
      | some stats =>
        match aget stats "coverage factor",
            aget stats "zero inflation factor" with
        | none, _ => (.error (.keyErrorS "coverage factor"), st1)
        | _, none => (.error (.keyErrorS "zero inflation factor"), st1)
        | some es, some zs =>
          let j := covResultJson es zs
          (.ok j, ⟨aset st1.fs covFname j, st1.samples⟩)

/-- Lines 157-239, `cov_and_zif_fac(recompute=False)`. -/
def cov_and_zif_fac (env : Env) (recompute : Bool) (st : Effects) :
    Except PyErr Json × Effects :=
  match aget st.fs covFname with
  | some j => if recompute then covCompute env st else (.ok j, st)
  | none => covCompute env st

/-- Outcome of the `__main__` block when it does not fault. -/
inductive MainResult where
  | ranAll : MainResult
  | usage : MainResult
deriving DecidableEq

/-- Whether the module's import statements (source lines 5-12) bind the name
`optparse`.  The module imports `numpy` and `pymc` by star import (both
packages publish `__all__` lists that do not contain `optparse`), plus
`simplejson as json`, `os`, `settings` and `data`; no statement imports
`optparse`, so the name is unbound when line 244 evaluates
`optparse.OptionParser(usage)`. -/
def moduleBindsOptparse : Bool := false

/-- Lines 242-252, the `__main__` block: construct an option parser, reject
extraneous positional arguments, then run the three estimators with
`recompute=True`.  Evaluating `optparse.OptionParser` first resolves the
name `optparse`; an unbound name raises `NameError` before anything else
runs. -/
def emp_priors_main (env : Env) (st : Effects) (args : List String) :
    Except PyErr MainResult × Effects :=
  if moduleBindsOptparse then
    if args.length ≠ 0 then (.ok .usage, st)
    else
      let r1 := llin_discard_rate env true st
      match r1.1 with
      | .error e => (.error e, r1.2)
      | .ok _ =>
        let r2 := admin_err_and_bias env true r1.2
        match r2.1 with
        | .error e => (.error e, r2.2)
        | .ok _ =>
          let r3 := cov_and_zif_fac env true r2.2
          match r3.1 with
          | .error e => (.error e, r3.2)
          | .ok _ => (.ok .ranAll, r3.2)
  else (.error (.nameError "optparse"), st)

/-- The fixed sampler configuration every procedure uses:
`mc.sample(iter*thin+burn, burn, thin)` with `iter=10000`, `thin=20`,
`burn=20000`, i.e. 220000 total steps. -/
def fixedCall (c : SampleCall) : Prop :=
  c.steps = 220000 ∧ c.burn = 20000 ∧ c.thin = 20

instance (c : SampleCall) : Decidable (fixedCall c) := by
  unfold fixedCall
  infer_instance

/-- No duplicate keys in an association list (invariant of every dict the
script builds). -/
def NDK {K V : Type} (l : List (K × V)) : Prop := (l.map Prod.fst).Nodup

/-- The last record of a table carrying a given country-year key (the one
whose values survive the dict-overwrite loops). -/
def lastBy {R : Type} (keyf : R → CYKey) (k : CYKey) : List R → Option R
  | [] => none
  | r :: t =>
    match lastBy keyf k t with
    | some x => some x
    | none => if keyf r = k then some r else none

/-- Effect of one stock record on an existing coverage dict entry. -/
def stockUpd (d : StockRec) (e : CovEntry) : CovEntry :=
  match e.pop with
  | some p =>
    ⟨e.pop, some (d.SvyIndex_LLINstotal / p), some (d.SvyIndex_st / p),
      e.uncovered, e.se⟩
  | none => e

/-- Effect of one coverage record on an existing coverage dict entry. -/
def covUpd (d : CovRec) (e : CovEntry) : CovEntry :=
  ⟨e.pop, e.stock, e.stock_se, some d.Per_0LLINs, some d.LLINs0_SE⟩

/-- Environment with empty data tables and a failing sampler, used to
exhibit fault behavior on concrete inputs. -/
def envW : Env :=
  ⟨[], [], [], [], [], [], fun x _ => x, id, id, fun _ _ _ _ => none⟩

/-- Empty cache directory and empty sample log. -/
def stW : Effects := ⟨[], []⟩

/-- A parsed cache value of the retention shape. -/
def jA : Json := .obj (.cons "alpha" (.num 2) (.cons "beta" (.num 3) .nil))

/-- A cache directory holding all three cache files. -/
def stC : Effects :=
  ⟨[(llinFname, jA), (adminFname, .num 7), (covFname, .num 8)], []⟩

/-- A one-record retention table for concrete witnesses. -/
def retenRec0 : RetenRec := ⟨"A", 2000, 4 / 5, 1⟩

/-- Environment with one retention record and a failing sampler. -/
def envR : Env :=
  ⟨[retenRec0], [], [], [], [], [], fun x _ => x, id, id, fun _ _ _ _ => none⟩

/-- One admin record for concrete witnesses. -/
def adminRec0 : AdminRec := ⟨"X", 2005, 1000⟩

/-- One flow record matching `adminRec0`'s country-year. -/
def flowRec0 : FlowRec := ⟨"X", 2005, 2005 + 1 / 2, 1200, 50⟩

/-- One population record for concrete witnesses. -/
def popRec0 : PopRec := ⟨"X", 2005, 17⟩

/-- One stock record matching `popRec0`'s country-year. -/
def stockRec0 : StockRec := ⟨"X", 2005, 3000, 60⟩

/-- One coverage record matching `popRec0`'s country-year. -/
def covRec0 : CovRec := ⟨"X", 2005, 1 / 2, 1 / 10⟩

/-- Environment with one fully joined record in every table and a sampler
oracle returning fixed statistics for every monitored variable. -/
def envS : Env :=
  ⟨[retenRec0], [adminRec0], [flowRec0], [popRec0], [stockRec0], [covRec0],
    fun x _ => x, id, id,
    fun _ _ _ _ =>
      some [("Pr[net is lost]", ⟨1 / 2, 1 / 10⟩),
        ("error in admin dist data", ⟨1, 1 / 2⟩),
        ("bias in admin dist data", ⟨0, 1 / 3⟩),
        ("coverage factor", ⟨5, 1 / 4⟩),
        ("zero inflation factor", ⟨1 / 11, 1 / 5⟩)]⟩

theorem aget_cons {K V : Type} [DecidableEq K] (k1 k : K) (v1 : V)
    (t : List (K × V)) :
    aget ((k1, v1) :: t) k = if k1 = k then some v1 else aget t k := rfl

theorem aset_cons {K V : Type} [DecidableEq K] (k1 k : K) (v1 v : V)
    (t : List (K × V)) :
    aset ((k1, v1) :: t) k v =
      if k1 = k then (k, v) :: t else (k1, v1) :: aset t k v := rfl

theorem aget_aset_self {K V : Type} [DecidableEq K] (l : List (K × V))
    (k : K) (v : V) : aget (aset l k v) k = some v := by
  induction l with
  | nil => simp [aset, aget]
  | cons h t ih =>
    obtain ⟨k1, v1⟩ := h
    by_cases hk : k1 = k <;> simp [aset, aget, hk, ih]

theorem aget_aset_ne {K V : Type} [DecidableEq K] (l : List (K × V))
    (k k2 : K) (v : V) (h : k ≠ k2) : aget (aset l k v) k2 = aget l k2 := by
  induction l with
  | nil => simp [aset, aget, h]
  | cons hd t ih =>
    obtain ⟨k1, v1⟩ := hd
    by_cases hk : k1 = k
    · subst hk
      simp [aset, aget, h]
    · simp only [aset, if_neg hk, aget]
      by_cases hk2 : k1 = k2 <;> simp [hk2, ih]

theorem mem_of_aget {K V : Type} [DecidableEq K] {l : List (K × V)}
    {k : K} {v : V} (h : aget l k = some v) : (k, v) ∈ l := by
  induction l with
  | nil => simp [aget] at h
  | cons hd t ih =>
    obtain ⟨k1, v1⟩ := hd
    rw [aget_cons] at h
    by_cases hk : k1 = k
    · subst hk
      rw [if_pos rfl, Option.some.injEq] at h
      subst h
      exact List.mem_cons_self _ _
    · rw [if_neg hk] at h
      exact List.mem_cons_of_mem _ (ih h)

theorem mem_keys_aset {K V : Type} [DecidableEq K] (l : List (K × V))
    (k a : K) (v : V) :
    a ∈ (aset l k v).map Prod.fst ↔ a ∈ l.map Prod.fst ∨ a = k := by
  induction l with
  | nil => simp [aset]
  | cons hd t ih =>
    obtain ⟨k1, v1⟩ := hd
    rw [aset_cons]
    by_cases hk : k1 = k
    · subst hk
      rw [if_pos rfl]
      simp only [List.map_cons, List.mem_cons]
      tauto
    · rw [if_neg hk]
      simp only [List.map_cons, List.mem_cons, ih]
      tauto

theorem NDK_aset {K V : Type} [DecidableEq K] {l : List (K × V)}
    (h : NDK l) (k : K) (v : V) : NDK (aset l k v) := by
  induction l with
  | nil => simp [NDK, aset]
  | cons hd t ih =>
    obtain ⟨k1, v1⟩ := hd
    simp only [NDK, List.map_cons, List.nodup_cons] at h
    rw [aset_cons]
    by_cases hk : k1 = k
    · subst hk
      simpa [NDK] using h
    · have ht := ih h.2
      simp only [NDK, if_neg hk, List.map_cons, List.nodup_cons]
      refine ⟨?_, ht⟩
      rw [mem_keys_aset]
      rintro (hm | hm)
      · exact h.1 hm
      · exact hk hm

theorem aget_of_mem {K V : Type} [DecidableEq K] {l : List (K × V)}
    {k : K} {v : V} (hnd : NDK l) (h : (k, v) ∈ l) : aget l k = some v := by
  induction l with
  | nil => simp at h
  | cons hd t ih =>
    obtain ⟨k1, v1⟩ := hd
    simp only [NDK, List.map_cons, List.nodup_cons] at hnd
    rcases List.mem_cons.mp h with he | ht
    · rw [← he]
      simp [aget]
    · have hk : k1 ≠ k := by
        rintro rfl
        exact hnd.1 (List.mem_map.mpr ⟨(k1, v), ht, rfl⟩)
      simp only [aget, if_neg hk]
      exact ih hnd.2 ht

theorem lastBy_mem {R : Type} {keyf : R → CYKey} {k : CYKey} {l : List R}
    {r : R} (h : lastBy keyf k l = some r) : r ∈ l ∧ keyf r = k := by
  induction l with
  | nil => simp [lastBy] at h
  | cons hd t ih =>
    simp only [lastBy] at h
    rcases hl : lastBy keyf k t with _ | x
    · rw [hl] at h
      by_cases hk : keyf hd = k
      · simp only [if_pos hk, Option.some.injEq] at h
        subst h
        exact ⟨List.mem_cons_self _ _, hk⟩
      · simp [if_neg hk] at h
    · rw [hl] at h
      simp only [Option.some.injEq] at h
      subst h
      obtain ⟨hm, hk⟩ := ih hl
      exact ⟨List.mem_cons_of_mem _ hm, hk⟩

theorem lastBy_isSome_iff {R : Type} (keyf : R → CYKey) (k : CYKey)
    (l : List R) : (lastBy keyf k l).isSome ↔ ∃ r ∈ l, keyf r = k := by
  induction l with
  | nil => simp [lastBy]
  | cons hd t ih =>
    simp only [lastBy]
    rcases hl : lastBy keyf k t with _ | x
    · rw [hl] at ih
      by_cases hk : keyf hd = k
      · simp [if_pos hk, hk]
      · simp only [if_neg hk, List.mem_cons]
        simp only [Option.isSome_none, Bool.false_eq_true, false_iff] at ih ⊢
        push_neg at ih ⊢
        rintro r (rfl | hm)
        · exact hk
        · exact ih r hm
    · rw [hl] at ih
      simp only [Option.isSome_some, true_iff] at ih
      obtain ⟨r, hm, hk⟩ := ih
      simp only [Option.isSome_some, true_iff]
      exact ⟨r, List.mem_cons_of_mem _ hm, hk⟩

theorem mapE_ok {α β : Type} (f : α → Except PyErr β) (l : List α)
    (h : ∀ x ∈ l, ∃ y, f x = .ok y) :
    ∃ ys, mapE f l = .ok ys ∧ ∀ y ∈ ys, ∃ x ∈ l, f x = .ok y := by
  induction l with
  | nil => exact ⟨[], rfl, by simp⟩
  | cons a t ih =>
    obtain ⟨y0, hy0⟩ := h a (List.mem_cons_self _ _)
    obtain ⟨ys, hys, hall⟩ := ih fun x hx => h x (List.mem_cons_of_mem _ hx)
    refine ⟨y0 :: ys, ?_, ?_⟩
    · simp [mapE, hy0, hys]
    · intro y hy
      rcases List.mem_cons.mp hy with rfl | hm
      · exact ⟨a, List.mem_cons_self _ _, hy0⟩
      · obtain ⟨x, hx, hfx⟩ := hall y hm
        exact ⟨x, List.mem_cons_of_mem _ hx, hfx⟩

theorem lastBy_cons {R : Type} (keyf : R → CYKey) (k : CYKey) (r : R)
    (t : List R) :
    lastBy keyf k (r :: t) =
      match lastBy keyf k t with
      | some x => some x
      | none => if keyf r = k then some r else none := rfl

theorem NDK_adminLoop1 (A : List AdminRec) :
    ∀ dd : List (CYKey × AdminEntry), NDK dd → NDK (A.foldl adminStep1 dd) := by
  induction A with
  | nil => intro dd h; exact h
  | cons a t ih =>
    intro dd h
    rw [List.foldl_cons]
    exact ih _ (NDK_aset h _ _)

theorem NDK_adminLoop2 (fpow : ℚ → ℚ → ℚ) (muPi : ℚ) (F : List FlowRec) :
    ∀ dd : List (CYKey × AdminEntry), NDK dd →
      NDK (F.foldl (adminStep2 fpow muPi) dd) := by
  induction F with
  | nil => intro dd h; exact h
  | cons f t ih =>
    intro dd h
    rw [List.foldl_cons]
    exact ih _ (NDK_aset h _ _)

theorem aget_adminLoop1 (A : List AdminRec) :
    ∀ (dd : List (CYKey × AdminEntry)) (k : CYKey),
    aget (A.foldl adminStep1 dd) k =
      match lastBy adminKey k A with
      | none => aget dd k
      | some a =>
        some ⟨some a.Program_LLINs,
          ((aget dd k).getD emptyAdminEntry).time,
          ((aget dd k).getD emptyAdminEntry).truth,
          ((aget dd k).getD emptyAdminEntry).se⟩ := by
  induction A with
  | nil =>
    intro dd k
    simp [lastBy]
  | cons a t ih =>
    intro dd k
    rw [List.foldl_cons, ih (adminStep1 dd a) k, lastBy_cons]
    rcases hl : lastBy adminKey k t with _ | x
    · simp only []
      by_cases hk : adminKey a = k
      · rw [if_pos hk]
        simp only [adminStep1, ← hk, aget_aset_self, Option.getD_some]
      · rw [if_neg hk]
        simp only [adminStep1]
        rw [aget_aset_ne _ _ _ _ hk]
    · simp only []
      by_cases hk : adminKey a = k
      · simp only [adminStep1, ← hk, aget_aset_self, Option.getD_some]
      · simp only [adminStep1]
        rw [aget_aset_ne _ _ _ _ hk]

theorem aget_adminLoop2 (fpow : ℚ → ℚ → ℚ) (muPi : ℚ) (F : List FlowRec) :
    ∀ (dd : List (CYKey × AdminEntry)) (k : CYKey),
    aget (F.foldl (adminStep2 fpow muPi) dd) k =
      match lastBy flowKey k F with
      | none => aget dd k
      | some f =>
        some ⟨((aget dd k).getD emptyAdminEntry).obs,
          some (f.mean_survey_date - (f.Year + 1 / 2)),
          some (f.Total_LLINs /
            fpow (1 - muPi) (f.mean_survey_date - (f.Year + 1 / 2))),
          some f.Total_st⟩ := by
  induction F with
  | nil =>
    intro dd k
    simp [lastBy]
  | cons f t ih =>
    intro dd k
    rw [List.foldl_cons, ih (adminStep2 fpow muPi dd f) k, lastBy_cons]
    rcases hl : lastBy flowKey k t with _ | x
    · simp only []
      by_cases hk : flowKey f = k
      · rw [if_pos hk]
        simp only [adminStep2, ← hk, aget_aset_self, Option.getD_some]
      · rw [if_neg hk]
        simp only [adminStep2]
        rw [aget_aset_ne _ _ _ _ hk]
    · simp only []
      by_cases hk : flowKey f = k
      · simp only [adminStep2, ← hk, aget_aset_self, Option.getD_some]
      · simp only [adminStep2]
        rw [aget_aset_ne _ _ _ _ hk]

theorem NDK_covLoop1 (P : List PopRec) :
    ∀ dd : List (CYKey × CovEntry), NDK dd → NDK (P.foldl covStep1 dd) := by
  induction P with
  | nil => intro dd h; exact h
  | cons p t ih =>
    intro dd h
    rw [List.foldl_cons]
    exact ih _ (NDK_aset h _ _)

theorem aget_covLoop1 (P : List PopRec) :
    ∀ (dd : List (CYKey × CovEntry)) (k : CYKey),
    aget (P.foldl covStep1 dd) k =
      match lastBy popKey k P with
      | none => aget dd k
      | some d => some ⟨some (d.Pop * 1000), none, none, none, none⟩ := by
  induction P with
  | nil =>
    intro dd k
    simp [lastBy]
  | cons d t ih =>
    intro dd k
    rw [List.foldl_cons, ih (covStep1 dd d) k, lastBy_cons]
    rcases hl : lastBy popKey k t with _ | x
    · simp only []
      by_cases hk : popKey d = k
      · rw [if_pos hk]
        simp only [covStep1, ← hk, aget_aset_self]
      · rw [if_neg hk]
        simp only [covStep1]
        rw [aget_aset_ne _ _ _ _ hk]
    · simp only []

theorem stockUpd_stockUpd (d1 d2 : StockRec) (e : CovEntry) :
    stockUpd d2 (stockUpd d1 e) = stockUpd d2 e := by
  rcases e with ⟨p, s1, s2, u, se⟩
  rcases p with _ | pv <;> simp [stockUpd]

theorem covUpd_covUpd (d1 d2 : CovRec) (e : CovEntry) :
    covUpd d2 (covUpd d1 e) = covUpd d2 e := rfl

theorem stockUpd_pop (d : StockRec) (e : CovEntry) :
    (stockUpd d e).pop = e.pop := by
  rcases e with ⟨p, s1, s2, u, se⟩
  rcases p with _ | pv <;> simp [stockUpd]

theorem covLoop2_ok (S : List StockRec) :
    ∀ dd : List (CYKey × CovEntry),
    (∀ d ∈ S, (aget dd (stockKey d)).isSome) →
    (∀ k e, aget dd k = some e → e.pop.isSome) →
    ∃ dd2, foldE covStep2 dd S = .ok dd2 ∧ (NDK dd → NDK dd2) ∧
      ∀ k, aget dd2 k =
        match lastBy stockKey k S with
        | none => aget dd k
        | some d => (aget dd k).map (stockUpd d) := by
  induction S with
  | nil =>
    intro dd _ _
    exact ⟨dd, rfl, fun h => h, fun k => by simp [lastBy]⟩
  | cons d t ih =>
    intro dd hkeys hpop
    obtain ⟨e, he⟩ :=
      Option.isSome_iff_exists.mp (hkeys d (List.mem_cons_self _ _))
    obtain ⟨p, hp⟩ := Option.isSome_iff_exists.mp (hpop _ _ he)
    have hstep : covStep2 dd d = .ok (aset dd (stockKey d) (stockUpd d e)) := by
      simp only [covStep2, he, hp, stockUpd]
    have hfold : foldE covStep2 dd (d :: t) =
        foldE covStep2 (aset dd (stockKey d) (stockUpd d e)) t := by
      simp only [foldE, hstep]
    have hkeys1 : ∀ d2 ∈ t,
        (aget (aset dd (stockKey d) (stockUpd d e)) (stockKey d2)).isSome := by
      intro d2 hd2
      by_cases hk : stockKey d = stockKey d2
      · rw [← hk, aget_aset_self]
        rfl
      · rw [aget_aset_ne _ _ _ _ hk]
        exact hkeys d2 (List.mem_cons_of_mem _ hd2)
    have hpop1 : ∀ k e2,
        aget (aset dd (stockKey d) (stockUpd d e)) k = some e2 →
        e2.pop.isSome := by
      intro k e2 h2
      by_cases hk : stockKey d = k
      · rw [← hk, aget_aset_self] at h2
        obtain rfl : stockUpd d e = e2 := Option.some.injEq _ _ ▸ h2
        rw [stockUpd_pop, hp]
        rfl
      · rw [aget_aset_ne _ _ _ _ hk] at h2
        exact hpop k e2 h2
    obtain ⟨dd2, hdd2, hnd2, hget2⟩ := ih _ hkeys1 hpop1
    refine ⟨dd2, by rw [hfold]; exact hdd2, fun hnd => hnd2 (NDK_aset hnd _ _), ?_⟩
    intro k
    rw [hget2 k, lastBy_cons]
    rcases hl : lastBy stockKey k t with _ | d2
    · simp only []
      by_cases hk : stockKey d = k
      · rw [if_pos hk, ← hk, aget_aset_self, he]
        rfl
      · rw [if_neg hk, aget_aset_ne _ _ _ _ hk]
    · by_cases hk : stockKey d = k
      · rw [← hk, aget_aset_self, he]
        simp [stockUpd_stockUpd]
      · rw [aget_aset_ne _ _ _ _ hk]

theorem covLoop3_ok (C : List CovRec) :
    ∀ dd : List (CYKey × CovEntry),
    (∀ d ∈ C, (aget dd (covRecKey d)).isSome) →
    ∃ dd3, foldE covStep3 dd C = .ok dd3 ∧ (NDK dd → NDK dd3) ∧
      ∀ k, aget dd3 k =
        match lastBy covRecKey k C with
        | none => aget dd k
        | some d => (aget dd k).map (covUpd d) := by
  induction C with
  | nil =>
    intro dd _
    exact ⟨dd, rfl, fun h => h, fun k => by simp [lastBy]⟩
  | cons d t ih =>
    intro dd hkeys
    obtain ⟨e, he⟩ :=
      Option.isSome_iff_exists.mp (hkeys d (List.mem_cons_self _ _))
    have hstep : covStep3 dd d = .ok (aset dd (covRecKey d) (covUpd d e)) := by
      simp only [covStep3, he, covUpd]
    have hfold : foldE covStep3 dd (d :: t) =
        foldE covStep3 (aset dd (covRecKey d) (covUpd d e)) t := by
      simp only [foldE, hstep]
    have hkeys1 : ∀ d2 ∈ t,
        (aget (aset dd (covRecKey d) (covUpd d e)) (covRecKey d2)).isSome := by
      intro d2 hd2
      by_cases hk : covRecKey d = covRecKey d2
      · rw [← hk, aget_aset_self]
        rfl
      · rw [aget_aset_ne _ _ _ _ hk]
        exact hkeys d2 (List.mem_cons_of_mem _ hd2)
    obtain ⟨dd3, hdd3, hnd3, hget3⟩ := ih _ hkeys1
    refine ⟨dd3, by rw [hfold]; exact hdd3, fun hnd => hnd3 (NDK_aset hnd _ _), ?_⟩
    intro k
    rw [hget3 k, lastBy_cons]
    rcases hl : lastBy covRecKey k t with _ | d2
    · simp only []
      by_cases hk : covRecKey d = k
      · rw [if_pos hk, ← hk, aget_aset_self, he]
        rfl
      · rw [if_neg hk, aget_aset_ne _ _ _ _ hk]
    · by_cases hk : covRecKey d = k
      · rw [← hk, aget_aset_self, he]
        simp [covUpd_covUpd]
      · rw [aget_aset_ne _ _ _ _ hk]

theorem mem_keys_filter {K V : Type} [DecidableEq K] (l : List (K × V))
    (p : K × V → Bool) (k : K) (hnd : NDK l) :
    k ∈ ((l.filter p).map Prod.fst) ↔ ∃ v, aget l k = some v ∧ p (k, v) := by
  constructor
  · intro h
    obtain ⟨⟨k1, v⟩, hm, hk⟩ := List.mem_map.mp h
    obtain ⟨hml, hp⟩ := List.mem_filter.mp hm
    cases hk
    exact ⟨v, aget_of_mem hnd hml, hp⟩
  · rintro ⟨v, hg, hp⟩
    exact List.mem_map.mpr
      ⟨(k, v), List.mem_filter.mpr ⟨mem_of_aget hg, hp⟩, rfl⟩

theorem NDK_nil {K V : Type} : NDK ([] : List (K × V)) := by
  simp [NDK]

theorem NDK_adminFull (A : List AdminRec) (F : List FlowRec)
    (fpow : ℚ → ℚ → ℚ) (muPi : ℚ) :
    NDK (F.foldl (adminStep2 fpow muPi) (A.foldl adminStep1 [])) :=
  NDK_adminLoop2 fpow muPi F _ (NDK_adminLoop1 A [] NDK_nil)

theorem aget_adminFull (A : List AdminRec) (F : List FlowRec)
    (fpow : ℚ → ℚ → ℚ) (muPi : ℚ) (k : CYKey) :
    aget (F.foldl (adminStep2 fpow muPi) (A.foldl adminStep1 [])) k =
      match lastBy adminKey k A, lastBy flowKey k F with
      | none, none => none
      | some a, none => some ⟨some a.Program_LLINs, none, none, none⟩
      | none, some f =>
        some ⟨none, some (f.mean_survey_date - (f.Year + 1 / 2)),
          some (f.Total_LLINs /
            fpow (1 - muPi) (f.mean_survey_date - (f.Year + 1 / 2))),
          some f.Total_st⟩
      | some a, some f =>
        some ⟨some a.Program_LLINs,
          some (f.mean_survey_date - (f.Year + 1 / 2)),
          some (f.Total_LLINs /
            fpow (1 - muPi) (f.mean_survey_date - (f.Year + 1 / 2))),
          some f.Total_st⟩ := by
  rw [aget_adminLoop2, aget_adminLoop1]
  rcases lastBy adminKey k A with _ | a <;>
    rcases lastBy flowKey k F with _ | f <;>
      simp [aget, emptyAdminEntry]

theorem entrySizeA_cases :
    (∀ x : ℚ, entrySizeA ⟨some x, none, none, none⟩ = 1) ∧
    (∀ t tr s : ℚ, entrySizeA ⟨none, some t, some tr, some s⟩ = 3) ∧
    (∀ x t tr s : ℚ, entrySizeA ⟨some x, some t, some tr, some s⟩ = 4) := by
  refine ⟨?_, ?_, ?_⟩ <;> intros <;> rfl

theorem adminJoin_keys (A : List AdminRec) (F : List FlowRec)
    (fpow : ℚ → ℚ → ℚ) (muPi : ℚ) (k : CYKey) :
    k ∈ (adminJoin A F fpow muPi).map Prod.fst ↔
      (∃ a ∈ A, adminKey a = k) ∧ (∃ f ∈ F, flowKey f = k) := by
  unfold adminJoin
  rw [mem_keys_filter _ _ _ (NDK_adminFull A F fpow muPi)]
  rw [← lastBy_isSome_iff adminKey, ← lastBy_isSome_iff flowKey]
  constructor
  · rintro ⟨v, hg, hp⟩
    rw [aget_adminFull] at hg
    rcases hA : lastBy adminKey k A with _ | a <;>
      rcases hF : lastBy flowKey k F with _ | f <;>
        rw [hA, hF] at hg <;> simp only [Option.some.injEq] at hg
    · exact absurd hg (by simp)
    · rw [← hg] at hp
      exact absurd hp (by simp [entrySizeA])
    · rw [← hg] at hp
      exact absurd hp (by simp [entrySizeA])
    · simp
  · rintro ⟨hA, hF⟩
    obtain ⟨a, hA⟩ := Option.isSome_iff_exists.mp hA
    obtain ⟨f, hF⟩ := Option.isSome_iff_exists.mp hF
    refine ⟨⟨some a.Program_LLINs,
      some (f.mean_survey_date - (f.Year + 1 / 2)),
      some (f.Total_LLINs /
        fpow (1 - muPi) (f.mean_survey_date - (f.Year + 1 / 2))),
      some f.Total_st⟩, ?_, ?_⟩
    · rw [aget_adminFull, hA, hF]
    · rfl

theorem adminJoin_mem (A : List AdminRec) (F : List FlowRec)
    (fpow : ℚ → ℚ → ℚ) (muPi : ℚ) {k : CYKey} {e : AdminEntry}
    (h : (k, e) ∈ adminJoin A F fpow muPi) :
    ∃ a ∈ A, ∃ f ∈ F, adminKey a = k ∧ flowKey f = k ∧
      e = ⟨some a.Program_LLINs,
        some (f.mean_survey_date - (f.Year + 1 / 2)),
        some (f.Total_LLINs /
          fpow (1 - muPi) (f.mean_survey_date - (f.Year + 1 / 2))),
        some f.Total_st⟩ := by
  unfold adminJoin at h
  obtain ⟨hm, hp⟩ := List.mem_filter.mp h
  have hg := aget_of_mem (NDK_adminFull A F fpow muPi) hm
  rw [aget_adminFull] at hg
  rcases hA : lastBy adminKey k A with _ | a <;>
    rcases hF : lastBy flowKey k F with _ | f <;>
      rw [hA, hF] at hg <;> simp only [Option.some.injEq] at hg
  · exact absurd hg (by simp)
  · rw [← hg] at hp
    exact absurd hp (by simp [entrySizeA])
  · rw [← hg] at hp
    exact absurd hp (by simp [entrySizeA])
  · obtain ⟨haA, hka⟩ := lastBy_mem hA
    obtain ⟨hfF, hkf⟩ := lastBy_mem hF
    exact ⟨a, haA, f, hfF, hka, hkf, hg.symm⟩

theorem covJoin_ok (P : List PopRec) (S : List StockRec) (C : List CovRec)
    (hS : ∀ d ∈ S, ∃ q ∈ P, popKey q = stockKey d)
    (hC : ∀ d ∈ C, ∃ q ∈ P, popKey q = covRecKey d) :
    ∃ dd, covJoin P S C = .ok dd ∧
      (∀ k, k ∈ dd.map Prod.fst ↔
        ((∃ q ∈ P, popKey q = k) ∧ (∃ s ∈ S, stockKey s = k) ∧
          (∃ c ∈ C, covRecKey c = k))) ∧
      (∀ q ∈ dd, entrySizeC q.2 = 5) := by
  have h1 : ∀ k, aget (P.foldl covStep1 []) k =
      match lastBy popKey k P with
      | none => none
      | some d => some ⟨some (d.Pop * 1000), none, none, none, none⟩ := by
    intro k
    rw [aget_covLoop1]
    rcases lastBy popKey k P with _ | d <;> simp [aget]
  have hkeys2 : ∀ d ∈ S, (aget (P.foldl covStep1 []) (stockKey d)).isSome := by
    intro d hd
    rw [h1]
    obtain ⟨q, hq, hqk⟩ := hS d hd
    obtain ⟨d0, hd0⟩ := Option.isSome_iff_exists.mp
      ((lastBy_isSome_iff popKey (stockKey d) P).mpr ⟨q, hq, hqk⟩)
    rw [hd0]
    rfl
  have hpop2 : ∀ k e, aget (P.foldl covStep1 []) k = some e →
      e.pop.isSome := by
    intro k e h
    rw [h1] at h
    rcases hp : lastBy popKey k P with _ | d <;> rw [hp] at h
    · exact absurd h (by simp)
    · simp only [Option.some.injEq] at h
      rw [← h]
      rfl
  obtain ⟨dd2, heq2, hnd2, hget2⟩ := covLoop2_ok S _ hkeys2 hpop2
  have hkeys3 : ∀ d ∈ C, (aget dd2 (covRecKey d)).isSome := by
    intro d hd
    rw [hget2]
    obtain ⟨q, hq, hqk⟩ := hC d hd
    obtain ⟨d0, hd0⟩ := Option.isSome_iff_exists.mp
      ((lastBy_isSome_iff popKey (covRecKey d) P).mpr ⟨q, hq, hqk⟩)
    rcases hs : lastBy stockKey (covRecKey d) S with _ | s
    · rw [h1, hd0]
      rfl
    · rw [h1, hd0]
      rfl
  obtain ⟨dd3, heq3, hnd3, hget3⟩ := covLoop3_ok C dd2 hkeys3
  have hndk3 : NDK dd3 := hnd3 (hnd2 (NDK_covLoop1 P [] NDK_nil))
  refine ⟨dd3.filter (fun p => entrySizeC p.2 == 5), ?_, ?_, ?_⟩
  · simp only [covJoin, heq2, heq3]
  · intro k
    rw [mem_keys_filter _ _ _ hndk3]
    rw [show (∃ q ∈ P, popKey q = k) ↔ (lastBy popKey k P).isSome from
      (lastBy_isSome_iff popKey k P).symm]
    rw [show (∃ s ∈ S, stockKey s = k) ↔ (lastBy stockKey k S).isSome from
      (lastBy_isSome_iff stockKey k S).symm]
    rw [show (∃ c ∈ C, covRecKey c = k) ↔ (lastBy covRecKey k C).isSome from
      (lastBy_isSome_iff covRecKey k C).symm]
    rcases hp : lastBy popKey k P with _ | dp
    · have hsn : lastBy stockKey k S = none := by
        rcases hs : lastBy stockKey k S with _ | s
        · rfl
        · obtain ⟨hmem, hkey⟩ := lastBy_mem hs
          obtain ⟨q, hq, hqk⟩ := hS s hmem
          have hps := (lastBy_isSome_iff popKey k P).mpr
            ⟨q, hq, by rw [hqk, hkey]⟩
          rw [hp] at hps
          exact absurd hps (by simp)
      have hcn : lastBy covRecKey k C = none := by
        rcases hc : lastBy covRecKey k C with _ | c
        · rfl
        · obtain ⟨hmem, hkey⟩ := lastBy_mem hc
          obtain ⟨q, hq, hqk⟩ := hC c hmem
          have hps := (lastBy_isSome_iff popKey k P).mpr
            ⟨q, hq, by rw [hqk, hkey]⟩
          rw [hp] at hps
          exact absurd hps (by simp)
      have hg3 : aget dd3 k = none := by
        rw [hget3, hcn, hget2, hsn, h1, hp]
      constructor
      · rintro ⟨v, hv, _⟩
        rw [hg3] at hv
        exact absurd hv (by simp)
      · rintro ⟨hps, _, _⟩
        exact absurd hps (by simp)
    · rcases hs : lastBy stockKey k S with _ | s <;>
        rcases hc : lastBy covRecKey k C with _ | c
      · have hg3 : aget dd3 k =
            some ⟨some (dp.Pop * 1000), none, none, none, none⟩ := by
          rw [hget3, hc, hget2, hs, h1, hp]
        constructor
        · rintro ⟨v, hv, hpv⟩
          rw [hg3] at hv
          simp only [Option.some.injEq] at hv
          rw [← hv] at hpv
          exact absurd hpv (by simp [entrySizeC])
        · rintro ⟨_, hss, _⟩
          exact absurd hss (by simp)
      · have hg3 : aget dd3 k =
            some ⟨some (dp.Pop * 1000), none, none, some c.Per_0LLINs,
              some c.LLINs0_SE⟩ := by
          rw [hget3, hc, hget2, hs, h1, hp]
          rfl
        constructor
        · rintro ⟨v, hv, hpv⟩
          rw [hg3] at hv
          simp only [Option.some.injEq] at hv
          rw [← hv] at hpv
          exact absurd hpv (by simp [entrySizeC])
        · rintro ⟨_, hss, _⟩
          exact absurd hss (by simp)
      · have hg3 : aget dd3 k =
            some ⟨some (dp.Pop * 1000),
              some (s.SvyIndex_LLINstotal / (dp.Pop * 1000)),
              some (s.SvyIndex_st / (dp.Pop * 1000)), none, none⟩ := by
          rw [hget3, hc, hget2, hs, h1, hp]
          simp [stockUpd]
        constructor
        · rintro ⟨v, hv, hpv⟩
          rw [hg3] at hv
          simp only [Option.some.injEq] at hv
          rw [← hv] at hpv
          exact absurd hpv (by simp [entrySizeC])
        · rintro ⟨_, _, hcc⟩
          exact absurd hcc (by simp)
      · have hg3 : aget dd3 k =
            some ⟨some (dp.Pop * 1000),
              some (s.SvyIndex_LLINstotal / (dp.Pop * 1000)),
              some (s.SvyIndex_st / (dp.Pop * 1000)), some c.Per_0LLINs,
              some c.LLINs0_SE⟩ := by
          rw [hget3, hc, hget2, hs, h1, hp]
          simp [stockUpd, covUpd]
        refine ⟨fun _ => ⟨rfl, rfl, rfl⟩, fun _ => ⟨_, hg3, ?_⟩⟩
        simp [entrySizeC]
  · intro q hq
    obtain ⟨_, hp5⟩ := List.mem_filter.mp hq
    exact beq_iff_eq.mp hp5

theorem mem_append_call {c call : SampleCall} {l : List SampleCall}
    (h : c ∈ l ++ [call]) (hc : fixedCall call) : c ∈ l ∨ fixedCall c := by
  rcases List.mem_append.mp h with h2 | h2
  · exact .inl h2
  · rw [List.mem_singleton.mp h2]
    exact .inr hc

theorem llinCompute_samples (env : Env) (st : Effects) (c : SampleCall)
    (h : c ∈ (llinCompute env st).2.samples) :
    c ∈ st.samples ∨ fixedCall c := by
  simp only [llinCompute] at h
  split at h
  · exact mem_append_call h ⟨rfl, rfl, rfl⟩
  · split at h
    · exact mem_append_call h ⟨rfl, rfl, rfl⟩
    · exact mem_append_call h ⟨rfl, rfl, rfl⟩

theorem llin_samples (env : Env) (r : Bool) (st : Effects) (c : SampleCall)
    (h : c ∈ (llin_discard_rate env r st).2.samples) :
    c ∈ st.samples ∨ fixedCall c := by
  rw [llin_discard_rate] at h
  split at h
  · split at h
    · exact llinCompute_samples env st c h
    · exact .inl h
  · exact llinCompute_samples env st c h

theorem adminCompute_samples (env : Env) (st : Effects) (c : SampleCall)
    (h : c ∈ (adminCompute env st).2.samples) :
    c ∈ st.samples ∨ fixedCall c := by
  have hll := llin_samples env false st c
  simp only [adminCompute] at h
  split at h
  · exact hll h
  · split at h
    · exact hll h
    · exact hll h
    · split at h
      · exact hll h
      · split at h
        · rcases List.mem_append.mp h with h2 | h2
          · exact hll h2
          · rw [List.mem_singleton.mp h2]
            exact .inr ⟨rfl, rfl, rfl⟩
        · split at h <;>
            [skip; skip; skip] <;>
            rcases List.mem_append.mp h with h2 | h2 <;>
              first
              | exact hll h2
              | (rw [List.mem_singleton.mp h2]; exact .inr ⟨rfl, rfl, rfl⟩)

theorem covCompute_samples (env : Env) (st : Effects) (c : SampleCall)
    (h : c ∈ (covCompute env st).2.samples) :
    c ∈ st.samples ∨ fixedCall c := by
  simp only [covCompute] at h
  split at h
  · exact .inl h
  · split at h
    · exact .inl h
    · split at h
      · exact mem_append_call h ⟨rfl, rfl, rfl⟩
      · split at h <;> exact mem_append_call h ⟨rfl, rfl, rfl⟩

theorem cov_samples (env : Env) (r : Bool) (st : Effects) (c : SampleCall)
    (h : c ∈ (cov_and_zif_fac env r st).2.samples) :
    c ∈ st.samples ∨ fixedCall c := by
  rw [cov_and_zif_fac] at h
  split at h
  · split at h
    · exact covCompute_samples env st c h
    · exact .inl h
  · exact covCompute_samples env st c h

theorem admin_samples (env : Env) (r : Bool) (st : Effects) (c : SampleCall)
    (h : c ∈ (admin_err_and_bias env r st).2.samples) :
    c ∈ st.samples ∨ fixedCall c := by
  rw [admin_err_and_bias] at h
  split at h
  · split at h
    · exact adminCompute_samples env st c h
    · exact .inl h
  · exact adminCompute_samples env st c h

theorem llinCompute_fs (env : Env) (st : Effects) (n : String)
    (hn : n ≠ llinFname) :
    aget (llinCompute env st).2.fs n = aget st.fs n := by
  simp only [llinCompute]
  split
  · rfl
  · split
    · rfl
    · exact aget_aset_ne _ _ _ _ fun hh => hn hh.symm

theorem llinCompute_err_fs (env : Env) (st : Effects) (e : PyErr) :
    (llinCompute env st).1 = .error e → (llinCompute env st).2.fs = st.fs := by
  simp only [llinCompute]
  split
  · intro _
    rfl
  · split
    · intro _
      rfl
    · intro h
      exact absurd h (by simp)

theorem llin_fs (env : Env) (r : Bool) (st : Effects) (n : String)
    (hn : n ≠ llinFname) :
    aget (llin_discard_rate env r st).2.fs n = aget st.fs n := by
  rw [llin_discard_rate]
  split
  · split
    · exact llinCompute_fs env st n hn
    · rfl
  · exact llinCompute_fs env st n hn

theorem llin_err_fs (env : Env) (r : Bool) (st : Effects) (e : PyErr) :
    (llin_discard_rate env r st).1 = .error e →
    (llin_discard_rate env r st).2.fs = st.fs := by
  rw [llin_discard_rate]
  split
  · split
    · exact llinCompute_err_fs env st e
    · intro h
      exact absurd h (by simp)
  · exact llinCompute_err_fs env st e

theorem adminCompute_err_fs (env : Env) (st : Effects) (e : PyErr) :
    (adminCompute env st).1 = .error e →
    aget (adminCompute env st).2.fs adminFname = aget st.fs adminFname := by
  have hlfs : aget (llin_discard_rate env false st).2.fs adminFname =
      aget st.fs adminFname :=
    llin_fs env false st adminFname (by decide)
  simp only [adminCompute]
  split
  · intro _
    exact hlfs
  · split
    · intro _
      exact hlfs
    · intro _
      exact hlfs
    · split
      · intro _
        exact hlfs
      · split
        · intro _
          exact hlfs
        · split
          · intro _
            exact hlfs
          · intro _
            exact hlfs
          · intro h
            exact absurd h (by simp)

theorem admin_err_fs (env : Env) (r : Bool) (st : Effects) (e : PyErr) :
    (admin_err_and_bias env r st).1 = .error e →
    aget (admin_err_and_bias env r st).2.fs adminFname =
      aget st.fs adminFname := by
  rw [admin_err_and_bias]
  split
  · split
    · exact adminCompute_err_fs env st e
    · intro h
      exact absurd h (by simp)
  · exact adminCompute_err_fs env st e

theorem covCompute_err_fs (env : Env) (st : Effects) (e : PyErr) :
    (covCompute env st).1 = .error e → (covCompute env st).2.fs = st.fs := by
  simp only [covCompute]
  split
  · intro _
    rfl
  · split
    · intro _
      rfl
    · split
      · intro _
        rfl
      · split
        · intro _
          rfl
        · intro _
          rfl
        · intro h
          exact absurd h (by simp)

theorem cov_err_fs (env : Env) (r : Bool) (st : Effects) (e : PyErr) :
    (cov_and_zif_fac env r st).1 = .error e →
    (cov_and_zif_fac env r st).2.fs = st.fs := by
  rw [cov_and_zif_fac]
  split
  · split
    · exact covCompute_err_fs env st e
    · intro h
      exact absurd h (by simp)
  · exact covCompute_err_fs env st e

/-- C1: for each of the three estimators, if the procedure's cache file is
present in the configured directory and the recompute argument is false, the
function returns exactly the parsed contents of that file and performs no
MCMC sampling (the returned state is the input state unchanged: no sampler
call is logged and the filesystem is untouched). -/
theorem claim_C1 (env : Env) (st : Effects) (j1 j2 j3 : Json)
    (h1 : aget st.fs llinFname = some j1)
    (h2 : aget st.fs adminFname = some j2)
    (h3 : aget st.fs covFname = some j3) :
    llin_discard_rate env false st = (.ok j1, st) ∧
    admin_err_and_bias env false st = (.ok j2, st) ∧
    cov_and_zif_fac env false st = (.ok j3, st) := by
  refine ⟨?_, ?_, ?_⟩
  · simp [llin_discard_rate, h1]
  · simp [admin_err_and_bias, h2]
  · simp [cov_and_zif_fac, h3]

/-- Witness for C1 at a concrete cache directory holding all three files. -/
theorem claim_C1_witness :
    llin_discard_rate envW false stC = (.ok jA, stC) ∧
    admin_err_and_bias envW false stC = (.ok (.num 7), stC) ∧
    cov_and_zif_fac envW false stC = (.ok (.num 8), stC) :=
  claim_C1 envW stC jA (.num 7) (.num 8) rfl rfl rfl

/-- C2 counterexample: the retention likelihood passes `1/sigma^2` as the
precision argument of `normal_like`, so the variance of the asserted normal
is `sigma^2`, not `1/sigma^2` as the claim states; at `sigma = 2` the two
differ (4 versus 1/4). -/
theorem claim_C2_counterexample :
    retenObsVariance 2 ≠ claimedRetenVariance 2 := by
  norm_num [retenObsVariance, retenObsTau, claimedRetenVariance]

/-- C2 amended: in `llin_discard_rate`, for every retention record the
observed likelihood node asserts the record's retention rate is normally
distributed around `(1-pi)^T` (T the record's follow-up time) with precision
`1/sigma^2`, i.e. variance `sigma^2`. -/
theorem claim_C2_amended (env : Env) (d : RetenRec) (hd : d ∈ env.retention)
    (pi sigma : ℚ) (hs : 0 < sigma) :
    mkRetenObs d ∈ (retenModelOf env).obs ∧
    (mkRetenObs d).value = d.Retention_Rate ∧
    retenObsMu env.fpow pi (mkRetenObs d) =
      env.fpow (1 - pi) d.Follow_up_Time ∧
    retenObsTau sigma = 1 / sigma ^ 2 ∧
    retenObsVariance sigma = sigma ^ 2 := by
  refine ⟨List.mem_map_of_mem _ hd, rfl, rfl, rfl, ?_⟩
  rw [retenObsVariance, retenObsTau, one_div_one_div]

/-- Witness for the amended C2 at a concrete record and `sigma = 2`. -/
theorem claim_C2_witness :
    mkRetenObs retenRec0 ∈ (retenModelOf envR).obs ∧
    (mkRetenObs retenRec0).value = retenRec0.Retention_Rate ∧
    retenObsMu envR.fpow (1 / 3) (mkRetenObs retenRec0) =
      envR.fpow (1 - 1 / 3) retenRec0.Follow_up_Time ∧
    retenObsTau 2 = 1 / 2 ^ 2 ∧
    retenObsVariance 2 = 2 ^ 2 :=
  claim_C2_amended envR retenRec0 (by simp [envR]) (1 / 3) 2 (by norm_num)

/-- C3 counterexample: in `cov_and_zif_fac` a coverage record whose
country-year has no population record raises a `KeyError` instead of being
silently dropped, so partially joined keys are not always "never an
error". -/
theorem claim_C3_counterexample :
    covJoin [] [] [covRec0] = .error (.keyErrorK ("X", 2005)) := rfl

/-- C3 amended: in the admin procedure the invariant holds unconditionally:
a country-year key appears in the likelihood record set exactly when it has
both an admin and a household-flow record, and every kept entry has all 4
required fields.  In the coverage procedure the same holds (presence in all
three tables, all 5 fields) provided every stock and coverage key also
appears in the population table; otherwise the join raises `KeyError`
rather than dropping the key. -/
theorem claim_C3_amended (A : List AdminRec) (F : List FlowRec)
    (P : List PopRec) (S : List StockRec) (C : List CovRec)
    (fpow : ℚ → ℚ → ℚ) (muPi : ℚ)
    (hS : ∀ d ∈ S, ∃ q ∈ P, popKey q = stockKey d)
    (hC : ∀ d ∈ C, ∃ q ∈ P, popKey q = covRecKey d) :
    (∀ k, k ∈ (adminJoin A F fpow muPi).map Prod.fst ↔
      ((∃ a ∈ A, adminKey a = k) ∧ (∃ f ∈ F, flowKey f = k))) ∧
    (∀ p ∈ adminJoin A F fpow muPi, entrySizeA p.2 = 4) ∧
    (∃ dd, covJoin P S C = .ok dd ∧
      (∀ k, k ∈ dd.map Prod.fst ↔
        ((∃ q ∈ P, popKey q = k) ∧ (∃ s ∈ S, stockKey s = k) ∧
          (∃ c ∈ C, covRecKey c = k))) ∧
      (∀ q ∈ dd, entrySizeC q.2 = 5)) := by
  refine ⟨adminJoin_keys A F fpow muPi, ?_, covJoin_ok P S C hS hC⟩
  intro p hp
  simp only [adminJoin] at hp
  exact beq_iff_eq.mp (List.mem_filter.mp hp).2

/-- Witness for the amended C3 at concrete one-record tables. -/
theorem claim_C3_witness :
    (∀ k, k ∈ (adminJoin [adminRec0] [flowRec0] (fun x _ => x)
        (1 / 3)).map Prod.fst ↔
      ((∃ a ∈ [adminRec0], adminKey a = k) ∧
        (∃ f ∈ [flowRec0], flowKey f = k))) ∧
    (∀ p ∈ adminJoin [adminRec0] [flowRec0] (fun x _ => x) (1 / 3),
      entrySizeA p.2 = 4) ∧
    (∃ dd, covJoin [popRec0] [stockRec0] [covRec0] = .ok dd ∧
      (∀ k, k ∈ dd.map Prod.fst ↔
        ((∃ q ∈ [popRec0], popKey q = k) ∧
          (∃ s ∈ [stockRec0], stockKey s = k) ∧
          (∃ c ∈ [covRec0], covRecKey c = k))) ∧
      (∀ q ∈ dd, entrySizeC q.2 = 5)) :=
  claim_C3_amended [adminRec0] [flowRec0] [popRec0] [stockRec0] [covRec0]
    (fun x _ => x) (1 / 3)
    (fun d hd => ⟨popRec0, List.mem_singleton_self _, by
      rw [List.mem_singleton.mp hd]
      rfl⟩)
    (fun d hd => ⟨popRec0, List.mem_singleton_self _, by
      rw [List.mem_singleton.mp hd]
      rfl⟩)

/-- C4: the `__main__` block references `optparse`, but no import statement
of the module binds that name, so every invocation of the entry point --
with or without positional arguments -- raises `NameError` before running
any estimator or reporting a usage error; the state is untouched. -/
theorem claim_C4_bug (env : Env) (st : Effects) (args : List String) :
    emp_priors_main env st args = (.error (.nameError "optparse"), st) := rfl

/-- C5: the Beta moment-matching conversion of source line 64 round-trips:
applied to the mean and variance of `Beta(a, b)` it reproduces `(a, b)`
exactly, for every positive `a` and `b`. -/
theorem claim_C5 (a b : ℚ) (ha : 0 < a) (hb : 0 < b) :
    momentAlpha (betaMean a b) (betaVariance a b) = a ∧
    momentBeta (betaMean a b) (betaVariance a b) = b := by
  have hs : a + b ≠ 0 := by positivity
  have hs1 : a + b + 1 ≠ 0 := by positivity
  have hab : a * b ≠ 0 := by positivity
  have key : betaMean a b * (1 - betaMean a b) / betaVariance a b =
      a + b + 1 := by
    unfold betaMean betaVariance
    field_simp
    ring
  constructor
  · unfold momentAlpha
    rw [key]
    unfold betaMean
    field_simp
  · unfold momentBeta
    rw [key]
    unfold betaMean
    field_simp

/-- Witness for C5 at `a = b = 1`. -/
theorem claim_C5_witness :
    (0 : ℚ) < 1 ∧
    (momentAlpha (betaMean 1 1) (betaVariance 1 1) = 1 ∧
      momentBeta (betaMean 1 1) (betaVariance 1 1) = 1) :=
  ⟨by norm_num, claim_C5 1 1 (by norm_num) (by norm_num)⟩

/-- C6: in `admin_err_and_bias` the discard-rate mean is
`mu_pi = alpha/(alpha+beta)` of the result of `llin_discard_rate`, and every
observed likelihood node of the constructed model asserts
`log(admin_count) ~ Normal(log(adjusted_truth) + eps,
variance = 1.1*(se/truth)^2 + sigma^2)` with
`adjusted_truth = Total_LLINs / (1-mu_pi)^time` and
`time = mean_survey_date - (Year + 0.5)`, the record fields coming from an
admin and a household-flow record sharing the node's country-year key. -/
theorem claim_C6 (env : Env) (a b eps sigma : ℚ) :
    muPiOf a b = a / (a + b) ∧
    ∃ nodes,
      mapE (mkAdminObs env.flog)
        ((adminJoin env.admin_llin env.hh_llin_flow env.fpow
          (muPiOf a b)).map Prod.snd) = .ok nodes ∧
      ∀ n ∈ nodes, ∃ ar ∈ env.admin_llin, ∃ fr ∈ env.hh_llin_flow,
        adminKey ar = flowKey fr ∧
        n.value = env.flog ar.Program_LLINs ∧
        adminObsMu n eps =
          env.flog (claimedAdjTruth env.fpow (muPiOf a b) fr) + eps ∧
        adminObsVariance n sigma =
          claimedAdminVariance fr.Total_st
            (claimedAdjTruth env.fpow (muPiOf a b) fr) sigma := by
  refine ⟨rfl, ?_⟩
  have hc : ∀ e ∈ (adminJoin env.admin_llin env.hh_llin_flow env.fpow
      (muPiOf a b)).map Prod.snd, ∃ y, mkAdminObs env.flog e = .ok y := by
    intro e he
    obtain ⟨⟨k, e2⟩, hm, hk⟩ := List.mem_map.mp he
    cases hk
    obtain ⟨ar, _, fr, _, _, _, hE⟩ := adminJoin_mem _ _ _ _ hm
    rw [hE]
    exact ⟨_, rfl⟩
  obtain ⟨nodes, hok, hall⟩ := mapE_ok _ _ hc
  refine ⟨nodes, hok, ?_⟩
  intro n hn
  obtain ⟨e, he, hfe⟩ := hall n hn
  obtain ⟨⟨k, e2⟩, hm, hk⟩ := List.mem_map.mp he
  cases hk
  obtain ⟨ar, har, fr, hfr, hka, hkf, hE⟩ := adminJoin_mem _ _ _ _ hm
  rw [hE] at hfe
  simp only [mkAdminObs, Except.ok.injEq] at hfe
  refine ⟨ar, har, fr, hfr, hka.trans hkf.symm, ?_, ?_, ?_⟩
  · rw [← hfe]
  · rw [← hfe, adminObsMu, claimedAdjTruth]
  · rw [← hfe, adminObsVariance, adminObsTau, one_div_one_div,
      claimedAdminVariance, claimedAdjTruth]
    ring

/-- Witness for C6 at a concrete environment with one joined record. -/
theorem claim_C6_witness :
    muPiOf 1 2 = 1 / (1 + 2) ∧
    ∃ nodes,
      mapE (mkAdminObs envS.flog)
        ((adminJoin envS.admin_llin envS.hh_llin_flow envS.fpow
          (muPiOf 1 2)).map Prod.snd) = .ok nodes ∧
      ∀ n ∈ nodes, ∃ ar ∈ envS.admin_llin, ∃ fr ∈ envS.hh_llin_flow,
        adminKey ar = flowKey fr ∧
        n.value = envS.flog ar.Program_LLINs ∧
        adminObsMu n 0 =
          envS.flog (claimedAdjTruth envS.fpow (muPiOf 1 2) fr) + 0 ∧
        adminObsVariance n 1 =
          claimedAdminVariance fr.Total_st
            (claimedAdjTruth envS.fpow (muPiOf 1 2) fr) 1 :=
  claim_C6 envS 1 2 0 1

/-- C7: for each of the three estimators, any fault (an `Except.error`
result, covering every fault the modelled fragment can raise before or
during sampling or summarization) leaves the procedure's own cache file
unchanged: the cache write is the last effect, performed only after
sampling and summarization succeed. -/
theorem claim_C7 (env : Env) (r : Bool) (st : Effects) :
    (∀ e, (llin_discard_rate env r st).1 = .error e →
      aget (llin_discard_rate env r st).2.fs llinFname =
        aget st.fs llinFname) ∧
    (∀ e, (admin_err_and_bias env r st).1 = .error e →
      aget (admin_err_and_bias env r st).2.fs adminFname =
        aget st.fs adminFname) ∧
    (∀ e, (cov_and_zif_fac env r st).1 = .error e →
      aget (cov_and_zif_fac env r st).2.fs covFname =
        aget st.fs covFname) := by
  refine ⟨fun e he => ?_, fun e he => admin_err_fs env r st e he,
    fun e he => ?_⟩
  · rw [llin_err_fs env r st e he]
  · rw [cov_err_fs env r st e he]

/-- Witness for C7: with a failing sampler all three procedures fault and
their cache files are unchanged. -/
theorem claim_C7_witness :
    aget (llin_discard_rate envW false stW).2.fs llinFname =
      aget stW.fs llinFname ∧
    aget (admin_err_and_bias envW false stW).2.fs adminFname =
      aget stW.fs adminFname ∧
    aget (cov_and_zif_fac envW false stW).2.fs covFname =
      aget stW.fs covFname :=
  ⟨(claim_C7 envW false stW).1 .samplerError rfl,
    (claim_C7 envW false stW).2.1 .samplerError rfl,
    (claim_C7 envW false stW).2.2 .samplerError rfl⟩

/-- C8: every `mc.sample` call any of the three estimators makes (beyond
those already in the input log) uses exactly 220000 total steps, 20000
burn-in and thinning 20; this holds for every environment and for both
values of the only parameter (`recompute`) of the public functions, so the
constants are not configurable. -/
theorem claim_C8 (env : Env) (r : Bool) (st : Effects) (c : SampleCall) :
    (c ∈ (llin_discard_rate env r st).2.samples →
      c ∈ st.samples ∨ fixedCall c) ∧
    (c ∈ (admin_err_and_bias env r st).2.samples →
      c ∈ st.samples ∨ fixedCall c) ∧
    (c ∈ (cov_and_zif_fac env r st).2.samples →
      c ∈ st.samples ∨ fixedCall c) :=
  ⟨llin_samples env r st c, admin_samples env r st c, cov_samples env r st c⟩

/-- The sampler call `llin_discard_rate` makes on an empty retention
table. -/
def c0 : SampleCall := ⟨.reten ⟨(1, 2), (11, 1), []⟩, 220000, 20000, 20⟩

/-- Witness for C8: a concrete run logs `c0` and the theorem classifies
it. -/
theorem claim_C8_witness : c0 ∈ stW.samples ∨ fixedCall c0 :=
  (claim_C8 envW false stW c0).1
    (by rw [show (llin_discard_rate envW false stW).2.samples = [c0] from rfl]
        exact List.mem_singleton_self c0)

/-- C10: on an empty retention table with no cache file, `llin_discard_rate`
does not fault: it builds the model holding only the two hyper-priors
(`pi ~ Beta(1,2)`, `sigma ~ InverseGamma(11,1)`, no observed nodes), runs
the full 220000-step sampler over it, and returns and caches the
`alpha`/`beta` dict moment-matched from the prior-only posterior of
`pi`. -/
theorem claim_C10 (env : Env) (st : Effects) (m s : ℚ)
    (stats : List (String × Stats))
    (h0 : env.retention = [])
    (h1 : aget st.fs llinFname = none)
    (h2 : env.sampler (PModel.reten ⟨(1, 2), (11, 1), []⟩)
      (10000 * 20 + 20000) 20000 20 = some stats)
    (h3 : aget stats "Pr[net is lost]" = some ⟨m, s⟩) :
    llin_discard_rate env false st =
      (.ok (retenAlphaBetaJson m (s ^ 2)),
        ⟨aset st.fs llinFname (retenAlphaBetaJson m (s ^ 2)),
          st.samples ++
            [⟨PModel.reten ⟨(1, 2), (11, 1), []⟩, 10000 * 20 + 20000,
              20000, 20⟩]⟩) := by
  have hm : retenModelOf env = ⟨(1, 2), (11, 1), []⟩ := by
    rw [retenModelOf, h0]
    rfl
  simp only [llin_discard_rate, h1, llinCompute, hm, h2, h3]

/-- A sampler oracle returning fixed statistics for `pi`. -/
def statsW : List (String × Stats) := [("Pr[net is lost]", ⟨1 / 2, 1 / 10⟩)]

/-- Environment with no data and a sampler oracle that always succeeds. -/
def envT : Env :=
  ⟨[], [], [], [], [], [], fun x _ => x, id, id, fun _ _ _ _ => some statsW⟩

/-- Witness for C10 at a concrete environment. -/
theorem claim_C10_witness :
    llin_discard_rate envT false stW =
      (.ok (retenAlphaBetaJson (1 / 2) ((1 / 10) ^ 2)),
        ⟨aset stW.fs llinFname (retenAlphaBetaJson (1 / 2) ((1 / 10) ^ 2)),
          stW.samples ++
            [⟨PModel.reten ⟨(1, 2), (11, 1), []⟩, 10000 * 20 + 20000,
              20000, 20⟩]⟩) :=
  claim_C10 envT stW (1 / 2) (1 / 10) statsW rfl rfl rfl rfl

end EmpPriors
